import Mathlib

/-!
Verification development for the enum parser-synthesis engine of `nom-derive`
(`src/enums.rs`).  The file shallowly embeds the synthesis functions
(`get_selector`, `get_repr`, `is_input_fieldless_enum`, `parse_variant`,
`impl_nom_fieldless_enums`, `impl_nom_enums`) over an abstract model of the
`syn` input, and gives an executable semantics to the code templates that
`impl_nom_enums` / `impl_nom_fieldless_enums` splice into their `quote!`
blocks, so that behavioural properties of the generated routines can be
stated and proved.
-/

deriving instance DecidableEq for Except

namespace NomDerive

/-! ## Attribute model (`meta::attr`)

Only the attribute kinds that `enums.rs` inspects are modelled. -/

inductive MetaAttrType where
  | Selector
  | BigEndian
  | LittleEndian
  | PreExec
  | PostExec
  | Verify
deriving DecidableEq, Repr

structure MetaAttr where
  attr_type : MetaAttrType
  arg : Option String
deriving DecidableEq, Repr

/-- `MetaAttr::is_type` — true when the attribute has the given kind. -/
def MetaAttr.is_type (m : MetaAttr) (t : MetaAttrType) : Bool :=
  m.attr_type == t

structure Config where
  input_name : String
  big_endian : Bool
  debug_derive : Bool
deriving DecidableEq, Repr

/-- Modelled from the spec: the resolved configuration defaults
(`config.rs` is not under `src/`): input variable name "i", big-endian
default byte order, debug emission off. -/
def Config.default : Config :=
  { input_name := "i", big_endian := true, debug_derive := false }

/-! ## Input model (the relevant fragment of `syn`)

`get_repr` scans raw `syn::Attribute` values through `parse_meta`; only the
shapes it distinguishes are modelled.  A raw attribute whose `parse_meta`
fails is `none`. -/

inductive SynNested where
  | metaPath : Option String → SynNested
  | metaOther : SynNested
  | lit : SynNested
deriving DecidableEq, Repr

inductive SynMeta where
  | nameValue : SynMeta
  | metaList : Option String → List SynNested → SynMeta
  | path : SynMeta
deriving DecidableEq, Repr

/-- One declared field, after the Field Parser Resolver has attached the
parser expression it resolved for the field. -/
structure FieldDef where
  name : String
  parserExpr : String
deriving DecidableEq, Repr

inductive SynFields where
  | unit
  | named : List FieldDef → SynFields
  | unnamed : List FieldDef → SynFields
deriving DecidableEq, Repr

/-- One enum variant: its identifier, the parsed `nom(...)` meta attributes
(the result of `meta::parse_nom_attribute`), and its fields. -/
structure SynVariant where
  ident : String
  attrs : List MetaAttr
  fields : SynFields
deriving DecidableEq, Repr

/-- The derive input: identifier, parsed top-level `nom(...)` meta
attributes (the result of `meta::parse_nom_top_level_attribute`), raw
attributes as seen by `get_repr`, and the enum variants (`none` when the
input is not `Data::Enum`). -/
structure DeriveInput where
  ident : String
  topMeta : List MetaAttr
  rawAttrs : List (Option SynMeta)
  data : Option (List SynVariant)
deriving DecidableEq, Repr

/-! ## Structures built by the synthesizer (`structs.rs` interface) -/

structure StructParser where
  name : String
  parser : String
deriving DecidableEq, Repr

structure StructParserTree where
  unnamed : Bool
  parsers : List StructParser
deriving DecidableEq, Repr

/-- Modelled from the spec: `parse_fields` (the Record Synthesizer
front-end, defined in `structs.rs`, which is not under `src/`) resolves
each declared field, in declaration order, to a (binding name, parser
expression) pair; tuple-like records are marked unnamed. -/
def parse_fields (fields : SynFields) : StructParserTree :=
  match fields with
  | .unit => { unnamed := false, parsers := [] }
  | .named fs => { unnamed := false, parsers := fs.map (fun f => ⟨f.name, f.parserExpr⟩) }
  | .unnamed fs => { unnamed := true, parsers := fs.map (fun f => ⟨f.name, f.parserExpr⟩) }

/-- First attribute of the given kind, and its argument. -/
def find_first_arg (ml : List MetaAttr) (k : MetaAttrType) : Option String :=
  match ml.find? (fun m => m.attr_type == k) with
  | some m => m.arg
  | none => none

/-- Drop every `PostExec` entry from an attribute list. -/
def erasePostExec (ml : List MetaAttr) : List MetaAttr :=
  ml.filter (fun m => !(m.attr_type == MetaAttrType.PostExec))

/-- Modelled from the spec: `get_pre_post_exec` (defined in `structs.rs`,
which is not under `src/`) returns the optional top-level pre- and
post-hook expressions, taken as the argument of the first `PreExec` /
`PostExec` entry respectively (first match wins). -/
def get_pre_post_exec (ml : List MetaAttr) (_config : Config) : Option String × Option String :=
  (find_first_arg ml .PreExec, find_first_arg ml .PostExec)

/-! ## The source functions of `src/enums.rs` -/

/-- `get_selector`: scan the meta list for the first `Selector` entry and
return its argument.  The source calls `meta.arg().unwrap()`, which panics
when the entry has no argument; panics are modelled as `Except.error`. -/
def get_selector (meta_list : List MetaAttr) : Except String (Option String) :=
  match meta_list with
  | [] => .ok none
  | meta :: rest =>
    match meta.attr_type with
    | .Selector =>
      match meta.arg with
      | some a => .ok (some a)
      | none => .error "called Option::unwrap() on a None value"
    | _ => get_selector rest

/-- `get_repr`: scan the raw attributes for a `repr(word)` list and return
the first nested word; unparseable attributes and non-`repr` lists are
skipped, unsupported nested shapes panic. -/
def get_repr (attrs : List (Option SynMeta)) : Except String (Option String) :=
  match attrs with
  | [] => .ok none
  | none :: rest => get_repr rest
  | some m :: rest =>
    match m with
    | .metaList (some "repr") nested =>
      match nested with
      | [] => get_repr rest
      | .metaPath (some word) :: _ => .ok (some word)
      | .metaPath none :: _ => .error "unsupported nested type for \x27repr\x27"
      | .metaOther :: _ => .error "unsupported nested type for \x27repr\x27"
      | .lit :: _ => .error "unsupported meta type for \x27repr\x27"
    | _ => get_repr rest

/-- `is_input_fieldless_enum`: the input is an enum and every variant has
unit fields (translated from the source's `fold`). -/
def is_input_fieldless_enum (ast : DeriveInput) : Bool :=
  match ast.data with
  | some variants =>
    variants.foldl
      (fun acc v => match v.fields with | .unit => acc | _ => false) true
  | none => false

structure VariantParserTree where
  ident : String
  selector : String
  struct_def : StructParserTree
deriving DecidableEq, Repr

/-- `parse_variant`: require a `Selector` attribute on the variant (missing
one panics) and resolve its fields. -/
def parse_variant (variant : SynVariant) (config : Config) : Except String VariantParserTree :=
  match get_selector variant.attrs with
  | .error e => .error e
  | .ok none =>
    .error ("The \x27Selector\x27 attribute must be used to give the value of selector item (variant "
      ++ variant.ident ++ ")")
  | .ok (some selector) =>
    let _ := config
    .ok { ident := variant.ident, selector := selector, struct_def := parse_fields variant.fields }

/-- The guard of the `match repr.as_ref()` in `impl_nom_fieldless_enums`. -/
def is_int_repr (repr : String) : Bool :=
  repr == "u8" || repr == "u16" || repr == "u24" || repr == "u32" || repr == "u64" ||
  repr == "i8" || repr == "i16" || repr == "i24" || repr == "i32" || repr == "i64"

/-- The routine emitted by `impl_nom_fieldless_enums`:

```
fn parse(orig_i: &[u8]) -> nom::IResult<&[u8], Name> {
    let i = orig_i;
    #tl_pre
    let (i, selector) = #parser(i)?;
    #(if selector == Name::V as ty { return Ok((i, Name::V)); })*
    Err(::nom::Err::Error((orig_i, ::nom::error::ErrorKind::Switch)))
}
```

`pre` is the optional `#tl_pre` hook, `parserExpr` the decoder path spliced
for `#parser`, `variant_names` the variants in declaration order. -/
structure FieldlessRoutine where
  pre : Option String
  parserExpr : String
  variant_names : List String
deriving DecidableEq, Repr

/-- `impl_nom_fieldless_enums`: choose a byte-order-aware decoder for the
declared representation (explicit `BigEndian` wins over explicit
`LittleEndian`, which wins over the configured default), collect the
variant names in declaration order, and emit the fieldless routine. -/
def impl_nom_fieldless_enums (ast : DeriveInput) (repr : String)
    (meta_list : List MetaAttr) (config : Config) : Except String FieldlessRoutine :=
  let tlpp := get_pre_post_exec meta_list config
  if is_int_repr repr then
    let is_big_endian :=
      if meta_list.any (fun m => m.is_type .BigEndian) then true
      else if meta_list.any (fun m => m.is_type .LittleEndian) then false
      else config.big_endian
    let parserExpr :=
      if is_big_endian then "nom::number::streaming::be_" ++ repr
      else "nom::number::streaming::le_" ++ repr
    match ast.data with
    | none => .error "expect enum"
    | some variants =>
      .ok { pre := tlpp.1, parserExpr := parserExpr,
            variant_names := variants.map (fun v => v.ident) }
  else .error "Cannot parse \x27repr\x27 content"

/-- One match arm of the selector-mode routine:

```
#pattern => {
    #(let (i, #id) = #parser (i)?;)*
    let struct_def = Name::Variant { .. } ;  -- or ( .. ) when unnamed
    Ok((i, struct_def))
},
```
-/
structure SelectorArm where
  pattern : String
  variant_name : String
  field_parsers : List StructParser
  unnamed : Bool
deriving DecidableEq, Repr

def mkArm (d : VariantParserTree) : SelectorArm :=
  { pattern := d.selector, variant_name := d.ident,
    field_parsers := d.struct_def.parsers, unnamed := d.struct_def.unnamed }

/-- `Vec::swap` on lists; out-of-range indices leave the list unchanged
(the source only swaps in-range indices). -/
def listSwap {α : Type} (l : List α) (i j : Nat) : List α :=
  match l[i]?, l[j]? with
  | some a, some b => (l.set i b).set j a
  | _, _ => l

/-- The reordering pass of `impl_nom_enums`: when some variant has the
wildcard selector "_", swap the first such variant with the last entry
(`variants_defs.swap(pos, last_index)`), so that the default case ends up
last. -/
def reorder_variants (defs : List VariantParserTree) : List VariantParserTree :=
  let default_case_handled := defs.any (fun d => d.selector == "_")
  if default_case_handled then
    let pos := defs.findIdx (fun d => d.selector == "_")
    let last_index := defs.length - 1
    if pos ≠ last_index then listSwap defs pos last_index else defs
  else defs

/-- The routine emitted by `impl_nom_enums` in selector mode:

```
fn parse(orig_i: &[u8], selector: #selector_type) -> nom::IResult<&[u8], Name> {
    let i = orig_i;
    #tl_pre
    let enum_def = match selector {
        #(#variants_code)*
        #default_case
    };
    enum_def
}
```

`default_err_arm` records whether the
`_ => Err(nom::Err::Error(nom::error_position!(i, ErrorKind::Switch)))`
default case is emitted (it is, exactly when no variant has selector "_"). -/
structure SelectorRoutine where
  pre : Option String
  selector_type : String
  arms : List SelectorArm
  default_err_arm : Bool
deriving DecidableEq, Repr

/-- The selector-mode body of `impl_nom_enums` after the variants have been
parsed: build one arm per variant, reorder the wildcard last, and append
the default error arm when no wildcard exists. -/
def build_selector_routine (defs : List VariantParserTree) (tl_pre : Option String)
    (selector : String) : SelectorRoutine :=
  let default_case_handled := defs.any (fun d => d.selector == "_")
  { pre := tl_pre, selector_type := selector,
    arms := (reorder_variants defs).map mkArm,
    default_err_arm := !default_case_handled }

inductive Routine where
  | selectorMode : SelectorRoutine → Routine
  | fieldless : FieldlessRoutine → Routine
deriving DecidableEq, Repr

/-- `impl_nom_enums`: the tagged-union driver.  With a top-level `Selector`
attribute it synthesizes the selector-mode routine; without one it requires
an all-fieldless enum with a `repr` attribute and synthesizes the fieldless
routine; otherwise it panics. -/
def impl_nom_enums (ast : DeriveInput) (config : Config) : Except String Routine :=
  let meta_list := ast.topMeta
  match get_selector meta_list with
  | .error e => .error e
  | .ok none =>
    if is_input_fieldless_enum ast then
      match get_repr ast.rawAttrs with
      | .error e => .error e
      | .ok (some repr) =>
        match impl_nom_fieldless_enums ast repr meta_list config with
        | .error e => .error e
        | .ok r => .ok (.fieldless r)
      | .ok none => .error "Nom-derive: fieldless enums must have a \x27repr\x27 attribute"
    else .error "Nom-derive: enums must specify the \x27selector\x27 attribute"
  | .ok (some selector) =>
    match ast.data with
    | none => .error "expect enum"
    | some variants =>
      match variants.mapM (fun v => parse_variant v config) with
      | .error e => .error e
      | .ok variants_defs =>
        let tlpp := get_pre_post_exec meta_list config
        .ok (.selectorMode (build_selector_routine variants_defs tlpp.1 selector))

/-! ## Semantics of the generated routines

The routines above are code templates; the following evaluator gives them
their meaning.  An `Env` interprets the host-supplied, opaque parts: the
Rust pattern matching of the selector patterns, the field parser
expressions, the injected pre-hook statements, the primitive integer
decoders, and the value of `Name::Variant as repr` for each variant. -/

abbrev Input := List Nat

inductive ErrorKind where
  | Switch
  | Eof
  | Verify
deriving DecidableEq, Repr

abbrev PError := Input × ErrorKind

abbrev PResult (α : Type) := Except PError (Input × α)

/-- The value constructed by a selector-mode arm: the variant name, the
parsed field values in declaration order, and whether the variant is
tuple-like. -/
structure EnumVal where
  variant_name : String
  field_values : List Nat
  unnamed : Bool
deriving DecidableEq, Repr

structure Env (σ : Type) where
  matchesPat : String → σ → Bool
  fparsers : String → Input → PResult Nat
  runHook : String → Input → Input
  decode : String → Input → PResult Int
  discr : String → Int

/-- `let i = orig_i; #tl_pre` — the pre-hook may rebind the input. -/
def applyPre {σ : Type} (env : Env σ) (pre : Option String) (i : Input) : Input :=
  match pre with
  | none => i
  | some h => env.runHook h i

/-- `#(let (i, #id) = #parser (i)?;)*` — run the field parsers in order,
threading the remaining input, short-circuiting on the first error. -/
def runFields {σ : Type} (env : Env σ) :
    List StructParser → Input → Except PError (Input × List Nat)
  | [], i => .ok (i, [])
  | sp :: rest, i =>
    match env.fparsers sp.parser i with
    | .error e => .error e
    | .ok (i2, v) =>
      match runFields env rest i2 with
      | .error e => .error e
      | .ok (i3, vs) => .ok (i3, v :: vs)

/-- The body of one selector-mode arm: parse the fields, then build the
variant value and return it with the remaining input. -/
def runArmBody {σ : Type} (env : Env σ) (arm : SelectorArm) (i : Input) : PResult EnumVal :=
  match runFields env arm.field_parsers i with
  | .error e => .error e
  | .ok (i2, vs) =>
    .ok (i2, { variant_name := arm.variant_name, field_values := vs, unnamed := arm.unnamed })

/-- `match selector { ... }` — test the arms in order; the first arm whose
pattern matches the selector runs.  When no arm matches, the default arm
`_ => Err(..ErrorKind::Switch)` applies if it was emitted; otherwise the
match is non-exhaustive (`none`; such code is rejected by the host
compiler and is shown unreachable below). -/
def runArms {σ : Type} (env : Env σ) (arms : List SelectorArm) (default_err : Bool)
    (sel : σ) (i : Input) : Option (PResult EnumVal) :=
  match arms with
  | [] => if default_err then some (.error (i, .Switch)) else none
  | arm :: rest =>
    if env.matchesPat arm.pattern sel then some (runArmBody env arm i)
    else runArms env rest default_err sel i

/-- The selector-mode `parse(orig_i, selector)` routine: bind `i` to the
original input, run the pre-hook, and dispatch the match on the supplied
selector value. -/
def runSelectorRoutine {σ : Type} (env : Env σ) (r : SelectorRoutine)
    (orig_input : Input) (sel : σ) : Option (PResult EnumVal) :=
  runArms env r.arms r.default_err_arm sel (applyPre env r.pre orig_input)

/-- The fieldless `parse(orig_i)` routine: run the pre-hook, decode the
representation integer, return the first variant whose discriminant equals
it (with the input left after the integer), else a `Switch` error carrying
`orig_i`. -/
def runFieldlessRoutine {σ : Type} (env : Env σ) (r : FieldlessRoutine)
    (orig_input : Input) : PResult String :=
  let i := applyPre env r.pre orig_input
  match env.decode r.parserExpr i with
  | .error e => .error e
  | .ok (i2, sel) =>
    match r.variant_names.find? (fun n => env.discr n == sel) with
    | some n => .ok (i2, n)
    | none => .error (orig_input, .Switch)

/-- True exactly on a runtime `Switch` error. -/
def isSwitchError {α : Type} : Except PError (Input × α) → Bool
  | .error (_, .Switch) => true
  | _ => false

/-! ## The spec-side definitions used for refinement comparisons -/

/-- The reordering pass as the spec words it: a stable partition of
non-wildcard variants before wildcard variants. -/
def spec_reorder_variants (defs : List VariantParserTree) : List VariantParserTree :=
  defs.filter (fun d => !(d.selector == "_")) ++ defs.filter (fun d => d.selector == "_")

/-- The selector-mode routine as the spec words it: first read a typed
selector value from the input, then dispatch the arms on the value read,
parsing the matched variant's fields from the remaining input left after
reading the selector. -/
def spec_runSelectorRoutine {σ : Type} (env : Env σ) (selDecode : Input → PResult σ)
    (r : SelectorRoutine) (orig_input : Input) : Option (PResult EnumVal) :=
  let i := applyPre env r.pre orig_input
  match selDecode i with
  | .error e => some (.error e)
  | .ok (i2, sel) => runArms env r.arms r.default_err_arm sel i2

/-! ## Concrete fixtures used by counterexamples and witnesses -/

/-- A concrete interpretation of the opaque parts: selector patterns are
decimal literals (or the wildcard), field parser expressions `be_u8` (read
one byte) and `rest_len` (yield the remaining length, consuming nothing),
the `be_u8` primitive decoder, and discriminants `A = 0`, `B = 1`. -/
def sampleEnv : Env Nat :=
  { matchesPat := fun pat s => if pat == "_" then true else pat == toString s,
    fparsers := fun p i =>
      match p with
      | "be_u8" =>
        match i with
        | [] => .error ([], .Eof)
        | b :: rest => .ok (rest, b)
      | "rest_len" => .ok (i, i.length)
      | _ => .error (i, .Eof),
    runHook := fun _ i => i,
    decode := fun p i =>
      if p == "nom::number::streaming::be_u8" then
        match i with
        | [] => .error ([], .Eof)
        | b :: rest => .ok (rest, (b : Int))
      else .error (i, .Eof),
    discr := fun n => if n == "A" then 0 else if n == "B" then 1 else 99 }

/-- A big-endian one-byte selector decoder, used to interpret the spec's
"read a typed selector value from the input". -/
def selDecodeU8 : Input → PResult Nat :=
  fun i =>
    match i with
    | [] => .error ([], .Eof)
    | b :: rest => .ok (rest, b)

/-- Parsed variants of an enum that declares its wildcard variant first. -/
def wildFirstDefs : List VariantParserTree :=
  [ { ident := "C", selector := "_", struct_def := { unnamed := false, parsers := [] } },
    { ident := "A", selector := "1", struct_def := { unnamed := false, parsers := [] } },
    { ident := "B", selector := "2", struct_def := { unnamed := false, parsers := [] } } ]

/-- The same enum as a derive input: wildcard variant declared first. -/
def wildFirstAst : DeriveInput :=
  { ident := "E1",
    topMeta := [⟨.Selector, some "u8"⟩],
    rawAttrs := [],
    data := some
      [ { ident := "C", attrs := [⟨.Selector, some "_"⟩], fields := .unit },
        { ident := "A", attrs := [⟨.Selector, some "1"⟩], fields := .unit },
        { ident := "B", attrs := [⟨.Selector, some "2"⟩], fields := .unit } ] }

def routineArmPatterns (x : Except String Routine) : List String :=
  match x with
  | .ok (.selectorMode r) => r.arms.map (fun a => a.pattern)
  | _ => []

def declaredSelectors (ast : DeriveInput) : List String :=
  match ast.data with
  | some vs =>
    vs.filterMap (fun v =>
      match get_selector v.attrs with
      | .ok (some s) => some s
      | _ => none)
  | none => []

def getSelectorRoutine (x : Except String Routine) : SelectorRoutine :=
  match x with
  | .ok (.selectorMode r) => r
  | _ => { pre := none, selector_type := "", arms := [], default_err_arm := true }

/-- A selector-mode enum with one variant whose single field parser
observes the length of the input it is handed. -/
def c2ast : DeriveInput :=
  { ident := "E2",
    topMeta := [⟨.Selector, some "u8"⟩],
    rawAttrs := [],
    data := some
      [ { ident := "A", attrs := [⟨.Selector, some "1"⟩],
          fields := .unnamed [{ name := "f0", parserExpr := "rest_len" }] } ] }

def c2routine : SelectorRoutine := getSelectorRoutine (impl_nom_enums c2ast Config.default)

/-- A fieldless enum with `repr(u8)` and variants `A`, `B`. -/
def fieldlessAst : DeriveInput :=
  { ident := "E3",
    topMeta := [],
    rawAttrs := [some (.metaList (some "repr") [.metaPath (some "u8")])],
    data := some
      [ { ident := "A", attrs := [], fields := .unit },
        { ident := "B", attrs := [], fields := .unit } ] }

def fieldlessR : FieldlessRoutine :=
  { pre := none, parserExpr := "nom::number::streaming::be_u8", variant_names := ["A", "B"] }

/-- An enum with a field-bearing variant and no top-level `Selector`. -/
def noSelectorAst : DeriveInput :=
  { ident := "E4", topMeta := [], rawAttrs := [],
    data := some
      [ { ident := "A", attrs := [],
          fields := .named [{ name := "x", parserExpr := "be_u8" }] } ] }

/-- An arm with two byte-reading fields. -/
def twoFieldArm : SelectorArm :=
  { pattern := "1", variant_name := "A",
    field_parsers := [⟨"a", "be_u8"⟩, ⟨"b", "be_u8"⟩], unnamed := false }

/-- Parsed variants with no wildcard. -/
def noWildDefs : List VariantParserTree :=
  [ { ident := "A", selector := "1", struct_def := { unnamed := false, parsers := [] } },
    { ident := "B", selector := "2", struct_def := { unnamed := false, parsers := [] } } ]

/-! ## Helper lemmas -/

/-- Characterization of a successful `impl_nom_fieldless_enums` run. -/
lemma impl_nom_fieldless_ok (ast : DeriveInput) (repr : String) (ml : List MetaAttr)
    (config : Config) (r : FieldlessRoutine)
    (hok : impl_nom_fieldless_enums ast repr ml config = .ok r) :
    is_int_repr repr = true ∧ ∃ vs, ast.data = some vs ∧
      r = { pre := (get_pre_post_exec ml config).1,
            parserExpr :=
              if (if ml.any (fun m => m.is_type .BigEndian) then true
                  else if ml.any (fun m => m.is_type .LittleEndian) then false
                  else config.big_endian)
              then "nom::number::streaming::be_" ++ repr
              else "nom::number::streaming::le_" ++ repr,
            variant_names := vs.map (fun v => v.ident) } := by
  simp only [impl_nom_fieldless_enums] at hok
  split at hok
  · cases hd : ast.data with
    | none => rw [hd] at hok; cases hok
    | some vs =>
      rw [hd] at hok
      refine ⟨by assumption, vs, rfl, ?_⟩
      cases hok
      rfl
  · cases hok

/-- Sequencing two runs of field parsers. -/
lemma runFields_append {σ : Type} (env : Env σ) (ps qs : List StructParser) (i : Input) :
    runFields env (ps ++ qs) i =
      match runFields env ps i with
      | .error e => .error e
      | .ok (i1, vs) =>
        match runFields env qs i1 with
        | .error e => .error e
        | .ok (i2, ws) => .ok (i2, vs ++ ws) := by
  induction ps generalizing i with
  | nil =>
    simp only [List.nil_append, runFields]
    cases h : runFields env qs i with
    | error e => rfl
    | ok p => cases p; rfl
  | cons sp ps' ih =>
    simp only [List.cons_append, runFields]
    cases hf : env.fparsers sp.parser i with
    | error e => rfl
    | ok p =>
      cases p with
      | mk i2 v =>
        dsimp only
        rw [List.append_eq, ih i2]
        cases h1 : runFields env ps' i2 with
        | error e => rfl
        | ok p2 =>
          cases p2 with
          | mk i3 vs =>
            dsimp only
            cases h2 : runFields env qs i3 with
            | error e => rfl
            | ok p3 => cases p3; rfl

/-- The first element satisfying `p`, characterized positionally: when
`l[k]` satisfies `p` and no earlier element does, `find?` returns `l[k]`. -/
lemma find_first_take {α : Type} (p : α → Bool) (l : List α) (k : Nat) (x : α)
    (hx : l[k]? = some x) (hpx : p x = true)
    (hpre : (l.take k).all (fun y => !(p y)) = true) :
    l.find? p = some x := by
  induction l generalizing k with
  | nil => simp at hx
  | cons a l' ih =>
    cases k with
    | zero =>
      simp only [List.getElem?_cons_zero, Option.some.injEq] at hx
      subst hx
      exact List.find?_cons_of_pos l' hpx
    | succ k' =>
      simp only [List.getElem?_cons_succ] at hx
      have hpa : p a = false := by
        simp only [List.take_succ_cons, List.all_cons, Bool.and_eq_true, Bool.not_eq_true']
          at hpre
        exact hpre.1
      rw [List.find?_cons_of_neg l' (by simp [hpa])]
      refine ih k' hx ?_
      simp only [List.take_succ_cons, List.all_cons, Bool.and_eq_true] at hpre
      exact hpre.2

/-- Without a wildcard variant the reordering pass changes nothing. -/
lemma reorder_variants_of_no_wildcard (defs : List VariantParserTree)
    (h : defs.any (fun d => d.selector == "_") = false) :
    reorder_variants defs = defs := by
  simp [reorder_variants, h]

/-- With a wildcard variant the reordering pass swaps the first wildcard
with the last entry: the wildcard ends up last, the declaration's last
entry takes the wildcard's position, and every other position is
untouched. -/
lemma reorder_variants_swap (defs : List VariantParserTree)
    (hw : defs.any (fun d => d.selector == "_") = true) :
    (reorder_variants defs).length = defs.length ∧
    ((reorder_variants defs).getLast?.map (fun d => d.selector)) = some "_" ∧
    (∀ k, k ≠ defs.findIdx (fun d => d.selector == "_") → k ≠ defs.length - 1 →
      (reorder_variants defs)[k]? = defs[k]?) ∧
    (reorder_variants defs)[defs.length - 1]? =
      defs[defs.findIdx (fun d => d.selector == "_")]? ∧
    (reorder_variants defs)[defs.findIdx (fun d => d.selector == "_")]? =
      defs[defs.length - 1]? := by
  have hex : ∃ x ∈ defs, (fun d => d.selector == "_") x := by
    rw [List.any_eq_true] at hw
    obtain ⟨x, hx, hpx⟩ := hw
    exact ⟨x, hx, hpx⟩
  have hpos : defs.findIdx (fun d => d.selector == "_") < defs.length :=
    List.findIdx_lt_length_of_exists hex
  have hlen0 : 0 < defs.length := Nat.lt_of_le_of_lt (Nat.zero_le _) hpos
  have hlast : defs.length - 1 < defs.length := Nat.sub_lt hlen0 Nat.one_pos
  have hpsel : (defs[defs.findIdx (fun d => d.selector == "_")]).selector = "_" := by
    have := @List.findIdx_getElem _ (fun d => d.selector == "_") defs hpos
    simpa using this
  by_cases hpl : defs.findIdx (fun d => d.selector == "_") = defs.length - 1
  · have hre : reorder_variants defs = defs := by
      simp [reorder_variants, hw, hpl]
    have hq : defs[defs.length - 1]? = defs[defs.findIdx (fun d => d.selector == "_")]? := by
      rw [hpl]
    refine ⟨by rw [hre], ?_, fun k _ _ => by rw [hre], by rw [hre, hq],
      by rw [hre]; exact hq.symm⟩
    rw [hre, List.getLast?_eq_getElem?, hq, List.getElem?_eq_getElem hpos]
    simp [hpsel]
  · have hre : reorder_variants defs =
        (defs.set (defs.findIdx (fun d => d.selector == "_"))
            (defs[defs.length - 1])).set (defs.length - 1)
          (defs[defs.findIdx (fun d => d.selector == "_")]) := by
      simp only [reorder_variants, hw, if_true, hpl, ne_eq, not_false_iff, listSwap,
        List.getElem?_eq_getElem hpos, List.getElem?_eq_getElem hlast]
    have hlen : (reorder_variants defs).length = defs.length := by
      rw [hre]; simp
    have hkth : ∀ k, k ≠ defs.findIdx (fun d => d.selector == "_") → k ≠ defs.length - 1 →
        (reorder_variants defs)[k]? = defs[k]? := by
      intro k hk1 hk2
      rw [hre, List.getElem?_set_ne (fun h => hk2 h.symm),
        List.getElem?_set_ne (fun h => hk1 h.symm)]
    have hat_last : (reorder_variants defs)[defs.length - 1]? =
        defs[defs.findIdx (fun d => d.selector == "_")]? := by
      rw [hre, List.getElem?_set_self (by simpa using hlast),
        List.getElem?_eq_getElem hpos]
    have hat_pos : (reorder_variants defs)[defs.findIdx (fun d => d.selector == "_")]? =
        defs[defs.length - 1]? := by
      rw [hre, List.getElem?_set_ne (fun h => hpl h.symm),
        List.getElem?_set_self hpos, List.getElem?_eq_getElem hlast]
    refine ⟨hlen, ?_, hkth, hat_last, hat_pos⟩
    rw [List.getLast?_eq_getElem?, hlen, hat_last, List.getElem?_eq_getElem hpos]
    simp [hpsel]

/-- When no arm matches, the default error arm produces the `Switch` error
at the dispatch input. -/
lemma runArms_no_match {σ : Type} (env : Env σ) (arms : List SelectorArm) (sel : σ)
    (i : Input) (h : ∀ a ∈ arms, env.matchesPat a.pattern sel = false) :
    runArms env arms true sel i = some (.error (i, .Switch)) := by
  induction arms with
  | nil => rfl
  | cons a rest ih =>
    have ha : env.matchesPat a.pattern sel = false := h a (List.mem_cons_self a rest)
    simp only [runArms, ha, Bool.false_eq_true, if_false]
    exact ih (fun x hx => h x (List.mem_cons_of_mem a hx))

/-- The first matching arm, after an unmatched prefix, runs. -/
lemma runArms_first_match {σ : Type} (env : Env σ) (l1 l2 : List SelectorArm)
    (arm : SelectorArm) (de : Bool) (sel : σ) (i : Input)
    (h1 : ∀ a ∈ l1, env.matchesPat a.pattern sel = false)
    (harm : env.matchesPat arm.pattern sel = true) :
    runArms env (l1 ++ arm :: l2) de sel i = some (runArmBody env arm i) := by
  induction l1 with
  | nil => simp [runArms, harm]
  | cons a rest ih =>
    have ha : env.matchesPat a.pattern sel = false := h1 a (List.mem_cons_self a rest)
    simp only [List.cons_append, runArms, ha, Bool.false_eq_true, if_false]
    exact ih (fun x hx => h1 x (List.mem_cons_of_mem a hx))

/-- When every non-wildcard arm fails to match and the wildcard pattern
matches, the first wildcard arm runs. -/
lemma runArms_find_wildcard {σ : Type} (env : Env σ) (arms : List SelectorArm)
    (a : SelectorArm) (de : Bool) (sel : σ) (i : Input)
    (hnm : ∀ x ∈ arms, x.pattern ≠ "_" → env.matchesPat x.pattern sel = false)
    (hwm : env.matchesPat "_" sel = true)
    (hfind : arms.find? (fun x => x.pattern == "_") = some a) :
    runArms env arms de sel i = some (runArmBody env a i) := by
  induction arms with
  | nil => cases hfind
  | cons x rest ih =>
    by_cases hx : x.pattern = "_"
    · rw [List.find?_cons_of_pos rest (by simp [hx])] at hfind
      injection hfind with hxa
      subst hxa
      have hxm : env.matchesPat x.pattern sel = true := by rw [hx]; exact hwm
      simp [runArms, hxm]
    · rw [List.find?_cons_of_neg rest (by simp [hx])] at hfind
      have hxm : env.matchesPat x.pattern sel = false :=
        hnm x (List.mem_cons_self x rest) hx
      simp only [runArms, hxm, Bool.false_eq_true, if_false]
      exact ih (fun y hy hyp => hnm y (List.mem_cons_of_mem x hy) hyp) hfind

/-- Removing `PostExec` entries does not change selector lookup. -/
lemma get_selector_erase_postexec (ml : List MetaAttr) :
    get_selector (erasePostExec ml) = get_selector ml := by
  induction ml with
  | nil => rfl
  | cons m rest ih =>
    cases ht : m.attr_type with
    | PostExec =>
      rw [erasePostExec, List.filter_cons_of_neg (by simp [ht])]
      rw [← erasePostExec, ih]
      simp [get_selector, ht]
    | Selector =>
      rw [erasePostExec, List.filter_cons_of_pos (by simp [ht])]
      simp [get_selector, ht]
    | _ =>
      rw [erasePostExec, List.filter_cons_of_pos (by simp [ht])]
      rw [show List.filter (fun m => !(m.attr_type == MetaAttrType.PostExec)) rest =
        erasePostExec rest from rfl]
      simpa [get_selector, ht] using ih

/-- Removing `PostExec` entries does not change the first entry of any
other kind. -/
lemma find_first_arg_erase_postexec (ml : List MetaAttr) (k : MetaAttrType)
    (hk : k ≠ .PostExec) :
    find_first_arg (erasePostExec ml) k = find_first_arg ml k := by
  induction ml with
  | nil => rfl
  | cons m rest ih =>
    by_cases hm : m.attr_type = .PostExec
    · rw [erasePostExec, List.filter_cons_of_neg (by simp [hm])]
      rw [← erasePostExec, ih]
      have hne : (m.attr_type == k) = false := by
        rw [hm]
        simpa using fun h => hk h.symm
      simp only [find_first_arg, List.find?_cons, hne]
    · rw [erasePostExec, List.filter_cons_of_pos (by simp [hm])]
      rw [show List.filter (fun m => !(m.attr_type == MetaAttrType.PostExec)) rest =
        erasePostExec rest from rfl]
      cases hmk : (m.attr_type == k) with
      | true => simp only [find_first_arg, List.find?_cons, hmk]
      | false =>
        simp only [find_first_arg, List.find?_cons, hmk]
        simpa [find_first_arg] using ih

/-- Removing `PostExec` entries does not change the endianness tests. -/
lemma any_is_type_erase_postexec (ml : List MetaAttr) (t : MetaAttrType)
    (ht : t ≠ .PostExec) :
    (erasePostExec ml).any (fun m => m.is_type t) = ml.any (fun m => m.is_type t) := by
  induction ml with
  | nil => rfl
  | cons m rest ih =>
    by_cases hm : m.attr_type = .PostExec
    · rw [erasePostExec, List.filter_cons_of_neg (by simp [hm])]
      rw [← erasePostExec, ih]
      have hne : m.is_type t = false := by
        rw [MetaAttr.is_type, hm]
        simpa using fun h => ht h.symm
      simp [hne]
    · rw [erasePostExec, List.filter_cons_of_pos (by simp [hm])]
      rw [show List.filter (fun m => !(m.attr_type == MetaAttrType.PostExec)) rest =
        erasePostExec rest from rfl]
      simp only [List.any_cons, ih]

/-- Removing `PostExec` entries does not change the fieldless synthesis. -/
lemma impl_fieldless_erase_postexec (ast : DeriveInput) (repr : String) (config : Config) :
    impl_nom_fieldless_enums { ast with topMeta := erasePostExec ast.topMeta } repr
        (erasePostExec ast.topMeta) config =
      impl_nom_fieldless_enums ast repr ast.topMeta config := by
  simp only [impl_nom_fieldless_enums, get_pre_post_exec,
    find_first_arg_erase_postexec ast.topMeta MetaAttrType.PreExec (by decide),
    any_is_type_erase_postexec ast.topMeta MetaAttrType.BigEndian (by decide),
    any_is_type_erase_postexec ast.topMeta MetaAttrType.LittleEndian (by decide)]

/-! ## Claims -/

/-- C8: selector lookup returns the argument of the first `Selector` entry,
in attribute order, and silently ignores any later duplicate `Selector`
entries: the lookup succeeds, duplicates are not reported as an error. -/
theorem get_selector_first_entry_wins (l1 l2 : List MetaAttr) (a : String)
    (h : ∀ m ∈ l1, m.attr_type ≠ .Selector) :
    get_selector (l1 ++ { attr_type := .Selector, arg := some a } :: l2) = .ok (some a) := by
  induction l1 with
  | nil => simp [get_selector]
  | cons m rest ih =>
    have hm : m.attr_type ≠ .Selector := h m (List.mem_cons_self m rest)
    have hrest : ∀ x ∈ rest, x.attr_type ≠ .Selector := fun x hx => h x (List.mem_cons_of_mem m hx)
    rw [List.cons_append]
    cases ht : m.attr_type
    · exact absurd ht hm
    all_goals simpa [get_selector, ht] using ih hrest

/-- Witness for C8: the first of two `Selector` entries wins. -/
theorem get_selector_first_entry_wins_witness :
    get_selector ([(⟨.PreExec, some "e"⟩ : MetaAttr)] ++
        { attr_type := .Selector, arg := some "u8" } ::
        [{ attr_type := .Selector, arg := some "u16" }]) = .ok (some "u8") :=
  get_selector_first_entry_wins _ _ _ (by decide)

/-- C6: fieldless byte-order resolution: an explicit `BigEndian` annotation
forces the big-endian decoder, else an explicit `LittleEndian` annotation
forces the little-endian decoder, else the configured default byte order
applies; and the default configuration is big-endian. -/
theorem fieldless_byte_order (ast : DeriveInput) (repr : String) (ml : List MetaAttr)
    (config : Config) (r : FieldlessRoutine)
    (hok : impl_nom_fieldless_enums ast repr ml config = .ok r) :
    (ml.any (fun m => m.is_type .BigEndian) = true →
      r.parserExpr = "nom::number::streaming::be_" ++ repr) ∧
    (ml.any (fun m => m.is_type .BigEndian) = false →
      ml.any (fun m => m.is_type .LittleEndian) = true →
      r.parserExpr = "nom::number::streaming::le_" ++ repr) ∧
    (ml.any (fun m => m.is_type .BigEndian) = false →
      ml.any (fun m => m.is_type .LittleEndian) = false →
      r.parserExpr =
        (if config.big_endian then "nom::number::streaming::be_"
         else "nom::number::streaming::le_") ++ repr) ∧
    Config.default.big_endian = true := by
  obtain ⟨hir, vs, hd, hr⟩ := impl_nom_fieldless_ok ast repr ml config r hok
  rw [hr]
  refine ⟨?_, ?_, ?_, rfl⟩
  · intro h1; simp [h1]
  · intro h1 h2; simp [h1, h2]
  · intro h1 h2
    simp only [h1, h2, Bool.false_eq_true, if_false]
    cases config.big_endian <;> simp

/-- Witness for C6: an explicit `LittleEndian` annotation overrides the
(big-endian) default configuration. -/
theorem fieldless_byte_order_witness :
    ({ pre := none, parserExpr := "nom::number::streaming::le_u8",
       variant_names := ["A", "B"] } : FieldlessRoutine).parserExpr =
      "nom::number::streaming::le_" ++ "u8" :=
  (fieldless_byte_order fieldlessAst "u8" [⟨.LittleEndian, none⟩] Config.default
      { pre := none, parserExpr := "nom::number::streaming::le_u8",
        variant_names := ["A", "B"] } (by decide)).2.1 (by decide) (by decide)

/-- C7: within a matched selector-mode arm the field parsers run in
declaration order, each consuming from the remaining input left by the
previous field, and the first field failure is the result of the whole arm
(no partial value is produced). -/
theorem arm_fields_sequence {σ : Type} (env : Env σ) (arm : SelectorArm)
    (ps qs : List StructParser) (i : Input) :
    (runFields env (ps ++ qs) i =
      match runFields env ps i with
      | .error e => .error e
      | .ok (i1, vs) =>
        match runFields env qs i1 with
        | .error e => .error e
        | .ok (i2, ws) => .ok (i2, vs ++ ws)) ∧
    (∀ sp i1 vs e, arm.field_parsers = ps ++ sp :: qs →
      runFields env ps i = .ok (i1, vs) →
      env.fparsers sp.parser i1 = .error e →
      runArmBody env arm i = .error e) := by
  refine ⟨runFields_append env ps qs i, ?_⟩
  intro sp i1 vs e harm hpre hfail
  have hall : runFields env arm.field_parsers i = .error e := by
    rw [harm, runFields_append env ps (sp :: qs) i, hpre]
    simp only [runFields, hfail]
  simp only [runArmBody, hall]

/-- Witness for C7: the second of two byte-reading fields fails on the
emptied input and its error is the arm's result. -/
theorem arm_fields_sequence_witness :
    runArmBody sampleEnv twoFieldArm [3] = .error ([], .Eof) :=
  (arm_fields_sequence sampleEnv twoFieldArm [⟨"a", "be_u8"⟩] [] [3]).2
    ⟨"b", "be_u8"⟩ [] [3] ([], .Eof) (by decide) (by decide) (by decide)

/-- C3: the fieldless routine reads one raw integer using the
byte-order-aware decoder of the declared representation, then returns the
first variant, in declaration order, whose discriminant (cast to the
representation type) equals the value read, together with the input left
after the integer; when no discriminant matches, the routine returns a
runtime `Switch` error. -/
theorem fieldless_first_discriminant {σ : Type} (env : Env σ) (ast : DeriveInput)
    (repr : String) (ml : List MetaAttr) (config : Config) (r : FieldlessRoutine)
    (input i2 : Input) (v : Int)
    (hok : impl_nom_fieldless_enums ast repr ml config = .ok r)
    (hdec : env.decode r.parserExpr (applyPre env r.pre input) = .ok (i2, v)) :
    (r.parserExpr = "nom::number::streaming::be_" ++ repr ∨
     r.parserExpr = "nom::number::streaming::le_" ++ repr) ∧
    (∀ vs, ast.data = some vs → r.variant_names = vs.map (fun x => x.ident)) ∧
    (∀ k n, r.variant_names[k]? = some n → env.discr n = v →
      (r.variant_names.take k).all (fun m => !(env.discr m == v)) = true →
      runFieldlessRoutine env r input = .ok (i2, n)) ∧
    (r.variant_names.all (fun m => !(env.discr m == v)) = true →
      isSwitchError (runFieldlessRoutine env r input) = true) := by
  obtain ⟨hir, vs, hd, hr⟩ := impl_nom_fieldless_ok ast repr ml config r hok
  refine ⟨?_, ?_, ?_, ?_⟩
  · rw [hr]
    dsimp only
    by_cases hc : (if ml.any (fun m => m.is_type .BigEndian) then true
        else if ml.any (fun m => m.is_type .LittleEndian) then false
        else config.big_endian) = true
    · exact Or.inl (if_pos hc)
    · exact Or.inr (if_neg hc)
  · intro vs' hd'
    rw [hd] at hd'
    cases hd'
    rw [hr]
  · intro k n hk hn hpre
    have hfind : r.variant_names.find? (fun m => env.discr m == v) = some n :=
      find_first_take _ _ k n hk (by simp [hn]) hpre
    simp only [runFieldlessRoutine, hdec, hfind]
  · intro hall
    have hfind : r.variant_names.find? (fun m => env.discr m == v) = none := by
      rw [List.find?_eq_none]
      intro x hx
      have := List.all_eq_true.mp hall x hx
      simp only [Bool.not_eq_true'] at this
      simp [this]
    simp only [runFieldlessRoutine, hdec, hfind, isSwitchError]

/-- Witness for C3: decoding selector byte 1 from `[1, 5]` yields variant
`B` (discriminant 1) and remaining input `[5]`. -/
theorem fieldless_first_discriminant_witness :
    runFieldlessRoutine sampleEnv fieldlessR [1, 5] = .ok ([5], "B") :=
  (fieldless_first_discriminant sampleEnv fieldlessAst "u8" [] Config.default fieldlessR
      [1, 5] [5] 1 (by decide) (by decide)).2.2.1 1 "B" (by decide) (by decide) (by decide)

/-- C10: when no variant discriminant equals the decoded integer, the
`Switch` error carries the original input buffer, as it was before the
representation integer was consumed (stated with the decoder having
consumed input, so the two positions differ). -/
theorem fieldless_switch_error_position {σ : Type} (env : Env σ) (ast : DeriveInput)
    (repr : String) (ml : List MetaAttr) (config : Config) (r : FieldlessRoutine)
    (input i2 : Input) (v : Int)
    (_hok : impl_nom_fieldless_enums ast repr ml config = .ok r)
    (hdec : env.decode r.parserExpr (applyPre env r.pre input) = .ok (i2, v))
    (_hconsumed : i2 ≠ applyPre env r.pre input)
    (hnm : r.variant_names.all (fun n => !(env.discr n == v)) = true) :
    runFieldlessRoutine env r input = .error (input, .Switch) := by
  have hfind : r.variant_names.find? (fun n => env.discr n == v) = none := by
    rw [List.find?_eq_none]
    intro x hx
    have := List.all_eq_true.mp hnm x hx
    simp only [Bool.not_eq_true'] at this
    simp [this]
  simp only [runFieldlessRoutine, hdec, hfind]

/-- C2 counterexample: the synthesized selector-mode routine takes the
selector as a function parameter and hands the matched variant's field
parsers the full input (length 2 observed), while a routine that read the
selector from the input — the spec's wording — would hand them the input
left after the read (length 1 observed); the two runs differ. -/
theorem selector_is_parameter_cex :
    runSelectorRoutine sampleEnv c2routine [1, 7] 1 =
      some (.ok ([1, 7], ⟨"A", [2], true⟩)) ∧
    spec_runSelectorRoutine sampleEnv selDecodeU8 c2routine [1, 7] =
      some (.ok ([7], ⟨"A", [1], true⟩)) ∧
    runSelectorRoutine sampleEnv c2routine [1, 7] 1 ≠
      spec_runSelectorRoutine sampleEnv selDecodeU8 c2routine [1, 7] := by
  decide

/-- C2 (amended): the selector-mode routine receives the selector as an
explicit parameter of the declared selector type; it consumes no input to
obtain it, and the first matched arm parses its fields from the full input
value as left by the pre-hook. -/
theorem selector_is_parameter {σ : Type} (env : Env σ) (ast : DeriveInput)
    (config : Config) (s : String) (r : SelectorRoutine) (input : Input) (sel : σ)
    (hsel : get_selector ast.topMeta = .ok (some s))
    (hr : impl_nom_enums ast config = .ok (.selectorMode r)) :
    r.selector_type = s ∧
    (∀ l1 arm l2, r.arms = l1 ++ arm :: l2 →
      (∀ a ∈ l1, env.matchesPat a.pattern sel = false) →
      env.matchesPat arm.pattern sel = true →
      runSelectorRoutine env r input sel =
        some (runArmBody env arm (applyPre env r.pre input))) := by
  have hchar : ∃ vs defs, ast.data = some vs ∧
      vs.mapM (fun v => parse_variant v config) = .ok defs ∧
      r = build_selector_routine defs (get_pre_post_exec ast.topMeta config).1 s := by
    simp only [impl_nom_enums, hsel] at hr
    cases hd : ast.data with
    | none => rw [hd] at hr; cases hr
    | some vs =>
      rw [hd] at hr
      dsimp only at hr
      cases hm : vs.mapM (fun v => parse_variant v config) with
      | error e => rw [hm] at hr; cases hr
      | ok defs =>
        rw [hm] at hr
        cases hr
        exact ⟨vs, defs, rfl, hm, rfl⟩
  obtain ⟨vs, defs, -, -, hrr⟩ := hchar
  constructor
  · rw [hrr]; rfl
  · intro l1 arm l2 hsplit h1 hm
    rw [runSelectorRoutine, hsplit]
    exact runArms_first_match env l1 l2 arm _ sel _ h1 hm

/-- Witness for C2 (amended): the single matched arm of the concrete
routine parses its field from the full two-byte input. -/
theorem selector_is_parameter_witness :
    runSelectorRoutine sampleEnv c2routine [1, 7] 1 =
      some (runArmBody sampleEnv ⟨"1", "A", [⟨"f0", "rest_len"⟩], true⟩
        (applyPre sampleEnv c2routine.pre [1, 7])) :=
  (selector_is_parameter sampleEnv c2ast Config.default "u8" c2routine [1, 7] 1
      (by decide) (by decide)).2 [] ⟨"1", "A", [⟨"f0", "rest_len"⟩], true⟩ []
    (by decide) (by decide) (by decide)

/-- C4: tagged-union dispatch: an explicit top-level `Selector` never
produces a fieldless-mode routine; no selector with an all-fieldless enum
uses fieldless mode when a `repr` attribute is present and is a fatal
error when it is absent; no selector with a field-bearing variant is the
fatal "selector required" error, never a silent fall back to fieldless
mode. -/
theorem enum_dispatch (ast : DeriveInput) (config : Config) :
    (∀ s, get_selector ast.topMeta = .ok (some s) →
      ∀ fr, impl_nom_enums ast config ≠ .ok (.fieldless fr)) ∧
    (get_selector ast.topMeta = .ok none → is_input_fieldless_enum ast = true →
      ∀ repr, get_repr ast.rawAttrs = .ok (some repr) →
        impl_nom_enums ast config =
          (match impl_nom_fieldless_enums ast repr ast.topMeta config with
           | .error e => .error e
           | .ok r => .ok (.fieldless r))) ∧
    (get_selector ast.topMeta = .ok none → is_input_fieldless_enum ast = true →
      get_repr ast.rawAttrs = .ok none →
      impl_nom_enums ast config =
        .error "Nom-derive: fieldless enums must have a \x27repr\x27 attribute") ∧
    (get_selector ast.topMeta = .ok none → is_input_fieldless_enum ast = false →
      impl_nom_enums ast config =
        .error "Nom-derive: enums must specify the \x27selector\x27 attribute") := by
  refine ⟨?_, ?_, ?_, ?_⟩
  · intro s hsel fr hcontra
    simp only [impl_nom_enums, hsel] at hcontra
    cases hd : ast.data with
    | none => rw [hd] at hcontra; cases hcontra
    | some vs =>
      rw [hd] at hcontra
      dsimp only at hcontra
      cases hm : vs.mapM (fun v => parse_variant v config) with
      | error e => rw [hm] at hcontra; cases hcontra
      | ok defs => rw [hm] at hcontra; cases hcontra
  · intro hsel hfl repr hrepr
    simp only [impl_nom_enums, hsel, hfl, if_true, hrepr]
  · intro hsel hfl hrepr
    simp only [impl_nom_enums, hsel, hfl, if_true, hrepr]
  · intro hsel hfl
    simp only [impl_nom_enums, hsel, hfl, Bool.false_eq_true, if_false]

/-- Witness for C4: an enum with a field-bearing variant and no `Selector`
attribute fails synthesis with the "selector required" error. -/
theorem enum_dispatch_witness :
    impl_nom_enums noSelectorAst Config.default =
      .error "Nom-derive: enums must specify the \x27selector\x27 attribute" :=
  (enum_dispatch noSelectorAst Config.default).2.2.2 (by decide) (by decide)

/-- C1 counterexample: for an enum that declares its wildcard variant
first, the synthesized arm order is `["2", "1", "_"]` while the declared
variant order is `["_", "1", "2"]`; the relative order of the non-wildcard
variants is reversed, so the reordering pass is not a stable partition. -/
theorem wildcard_reorder_not_stable :
    routineArmPatterns (impl_nom_enums wildFirstAst Config.default) = ["2", "1", "_"] ∧
    declaredSelectors wildFirstAst = ["_", "1", "2"] ∧
    (routineArmPatterns (impl_nom_enums wildFirstAst Config.default)).filter
        (fun p => !(p == "_")) ≠
      (declaredSelectors wildFirstAst).filter (fun p => !(p == "_")) := by
  decide

/-- C1 (amended): without a wildcard variant the arms keep declaration
order; with a wildcard variant the reordering pass swaps the first
wildcard variant with the last declared variant, so the wildcard is tested
last, the last-declared variant takes the wildcard's declared position,
and all other positions keep their declared variant (the pass is a swap,
not a stable partition). -/
theorem wildcard_reorder_is_swap (defs : List VariantParserTree) :
    (defs.any (fun d => d.selector == "_") = false → reorder_variants defs = defs) ∧
    (defs.any (fun d => d.selector == "_") = true →
      (reorder_variants defs).length = defs.length ∧
      ((reorder_variants defs).getLast?.map (fun d => d.selector)) = some "_" ∧
      (∀ k, k ≠ defs.findIdx (fun d => d.selector == "_") → k ≠ defs.length - 1 →
        (reorder_variants defs)[k]? = defs[k]?) ∧
      (reorder_variants defs)[defs.length - 1]? =
        defs[defs.findIdx (fun d => d.selector == "_")]? ∧
      (reorder_variants defs)[defs.findIdx (fun d => d.selector == "_")]? =
        defs[defs.length - 1]?) :=
  ⟨reorder_variants_of_no_wildcard defs, reorder_variants_swap defs⟩

/-- Witness for C1 (amended): on the wildcard-first variant list, the
reordered list ends with the wildcard and keeps position 1 untouched. -/
theorem wildcard_reorder_is_swap_witness :
    ((reorder_variants wildFirstDefs).getLast?.map (fun d => d.selector) = some "_") ∧
    (reorder_variants wildFirstDefs)[1]? = wildFirstDefs[1]? :=
  ⟨((wildcard_reorder_is_swap wildFirstDefs).2 (by decide)).2.1,
   ((wildcard_reorder_is_swap wildFirstDefs).2 (by decide)).2.2.1 1 (by decide) (by decide)⟩

/-- C5: selector-mode dispatch failure: when no variant declares the
wildcard selector, the routine carries the default error arm and an
unmatched selector yields a runtime `Switch` error; when a wildcard
variant is declared, no error arm is generated and a selector matched by
no non-wildcard pattern runs the wildcard arm. -/
theorem selector_switch_or_wildcard {σ : Type} (env : Env σ)
    (defs : List VariantParserTree) (tl_pre : Option String) (selty : String)
    (sel : σ) (input : Input) :
    (defs.any (fun d => d.selector == "_") = false →
      (build_selector_routine defs tl_pre selty).default_err_arm = true ∧
      ((∀ a ∈ (build_selector_routine defs tl_pre selty).arms,
          env.matchesPat a.pattern sel = false) →
        runSelectorRoutine env (build_selector_routine defs tl_pre selty) input sel =
          some (.error (applyPre env tl_pre input, .Switch)))) ∧
    (defs.any (fun d => d.selector == "_") = true →
      env.matchesPat "_" sel = true →
      (build_selector_routine defs tl_pre selty).default_err_arm = false ∧
      ((build_selector_routine defs tl_pre selty).arms.find?
          (fun a => a.pattern == "_")).isSome = true ∧
      ((∀ a ∈ (build_selector_routine defs tl_pre selty).arms,
          a.pattern ≠ "_" → env.matchesPat a.pattern sel = false) →
        ((build_selector_routine defs tl_pre selty).arms.find?
            (fun a => a.pattern == "_")).map
            (fun a => runArmBody env a (applyPre env tl_pre input)) =
          runSelectorRoutine env (build_selector_routine defs tl_pre selty) input sel)) := by
  constructor
  · intro hw
    have hde : (build_selector_routine defs tl_pre selty).default_err_arm = true := by
      simp [build_selector_routine, hw]
    refine ⟨hde, fun hall => ?_⟩
    simp only [runSelectorRoutine, hde]
    exact runArms_no_match env _ sel _ hall
  · intro hw hwm
    have hde : (build_selector_routine defs tl_pre selty).default_err_arm = false := by
      simp [build_selector_routine, hw]
    obtain ⟨-, hlast, -, -, -⟩ := reorder_variants_swap defs hw
    obtain ⟨d, hd, hdsel⟩ := Option.map_eq_some'.mp hlast
    have hdm : d ∈ reorder_variants defs := by
      rw [List.getLast?_eq_getElem?] at hd
      exact List.getElem?_mem hd
    have harm : mkArm d ∈ (build_selector_routine defs tl_pre selty).arms :=
      List.mem_map_of_mem mkArm hdm
    have hsome : ((build_selector_routine defs tl_pre selty).arms.find?
        (fun a => a.pattern == "_")).isSome = true := by
      rw [List.find?_isSome]
      exact ⟨mkArm d, harm, by simp [mkArm, hdsel]⟩
    refine ⟨hde, hsome, fun hall => ?_⟩
    cases hfind : (build_selector_routine defs tl_pre selty).arms.find?
        (fun a => a.pattern == "_") with
    | none => rw [hfind] at hsome; cases hsome
    | some a =>
      simp only [Option.map_some']
      rw [runSelectorRoutine]
      have hpre : (build_selector_routine defs tl_pre selty).pre = tl_pre := rfl
      rw [hpre]
      exact (runArms_find_wildcard env _ a _ sel (applyPre env tl_pre input)
        hall hwm hfind).symm

/-- C9: a top-level `PostExec` annotation has no effect on the synthesized
routine: erasing every top-level `PostExec` entry leaves the output of the
tagged-union driver unchanged, in both selector and fieldless modes (only
the pre-hook is injected into the generated code). -/
theorem postexec_no_effect (ast : DeriveInput) (config : Config) :
    impl_nom_enums { ast with topMeta := erasePostExec ast.topMeta } config =
      impl_nom_enums ast config := by
  have htop : ({ ast with topMeta := erasePostExec ast.topMeta } : DeriveInput).topMeta
      = erasePostExec ast.topMeta := rfl
  have hdat : ({ ast with topMeta := erasePostExec ast.topMeta } : DeriveInput).data
      = ast.data := rfl
  have hraw : ({ ast with topMeta := erasePostExec ast.topMeta } : DeriveInput).rawAttrs
      = ast.rawAttrs := rfl
  have hifl : is_input_fieldless_enum { ast with topMeta := erasePostExec ast.topMeta }
      = is_input_fieldless_enum ast := rfl
  have hpre : (get_pre_post_exec (erasePostExec ast.topMeta) config).1
      = (get_pre_post_exec ast.topMeta config).1 := by
    simp only [get_pre_post_exec]
    exact find_first_arg_erase_postexec ast.topMeta .PreExec (by decide)
  simp only [impl_nom_enums, htop, hdat, hraw, hifl, get_selector_erase_postexec,
    impl_fieldless_erase_postexec, hpre]

/-- Witness for C5: with variants `1`/`2` and selector 9 the routine
yields the `Switch` error; with an added wildcard variant the wildcard arm
handles selector 9. -/
theorem selector_switch_or_wildcard_witness :
    runSelectorRoutine sampleEnv (build_selector_routine noWildDefs none "u8") [4] 9 =
      some (.error ([4], .Switch)) ∧
    ((build_selector_routine wildFirstDefs none "u8").arms.find?
        (fun a => a.pattern == "_")).map
        (fun a => runArmBody sampleEnv a (applyPre sampleEnv none [4])) =
      runSelectorRoutine sampleEnv (build_selector_routine wildFirstDefs none "u8") [4] 9 :=
  ⟨((selector_switch_or_wildcard sampleEnv noWildDefs none "u8" 9 [4]).1
      (by decide)).2 (by decide),
   ((selector_switch_or_wildcard sampleEnv wildFirstDefs none "u8" 9 [4]).2
      (by decide) (by decide)).2.2 (by decide)⟩

/-- Witness for C10: on input `[7, 5]` the decoder consumes the byte 7, no
discriminant equals 7, and the `Switch` error carries `[7, 5]`, not `[5]`. -/
theorem fieldless_switch_error_position_witness :
    runFieldlessRoutine sampleEnv fieldlessR [7, 5] = .error ([7, 5], .Switch) :=
  fieldless_switch_error_position sampleEnv fieldlessAst "u8" [] Config.default fieldlessR
    [7, 5] [5] 7 (by decide) (by decide) (by decide) (by decide)

end NomDerive
